import Mathlib

/-!
# lab8.cpp : field vectors, Gauss' law and Ampère's law

A shallow embedding of `src/lab8.cpp`.

* A C++ `double` is modelled as an element of a scalar type `R` carrying the
  arithmetic the program uses (`+`, `*`, `/`, numeric literals).  Definitions are
  computable (they run at `R := ℚ`); theorems are stated over an arbitrary
  linearly ordered field, hence hold for the real numbers in particular.
* `M_PI` comes from `<cmath>`, which is not part of the program text; every
  definition using it takes the value as the parameter `pi`.
* `std::ostream << double` comes from `<iostream>`; the text written for a
  number is the parameter `fmt`.
* The array member `double value[3]` is the three fields `value0`, `value1`,
  `value2`.
* Division by zero is outside the model: in a field `x / 0` is 0 by convention,
  whereas a `double` gives an infinity or a NaN.
* Rounding, overflow and underflow of `double` arithmetic are outside the model
  as well.  The theorems are therefore limited to what does not depend on them:
  which expression an operation evaluates and which members it leaves alone,
  commutativity of `+`, and the values at the inputs of `main`.  Laws of exact
  arithmetic that rounding breaks (associativity of `+`, cancellation of π in
  Ampère's formula, the inverse-square and linearity laws of the two formulas)
  are not asserted of the program.
-/

namespace Lab8

/-! ## Constants (lab8.cpp:5-6) -/

/-- Vacuum permittivity, `const double EPSILON_0 = 8.85e-12;`. -/
def EPSILON_0 {R : Type} [DivisionRing R] : R := 8.85e-12

/-- Vacuum permeability, `const double MU_0 = 4 * M_PI * 1e-7;`. -/
def MU_0 {R : Type} [DivisionRing R] (pi : R) : R := 4 * pi * 1e-7

/-! ## class Field (lab8.cpp:9-24) -/

/-- Base class `Field`: the member `double value[3]`. -/
structure Field (R : Type) where
  value0 : R
  value1 : R
  value2 : R
deriving DecidableEq

/-- Constructor `Field()`: `value[0] = value[1] = value[2] = 0.0`. -/
def Field.default {R : Type} [DivisionRing R] : Field R :=
  Field.mk 0.0 0.0 0.0

/-- Constructor `Field(double x, double y, double z)`. -/
def Field.ofXYZ {R : Type} (x y z : R) : Field R :=
  Field.mk x y z

/-- Text written by `Field::printMagnitude`. -/
def Field.printMagnitude {R : Type} (fmt : R → String) (f : Field R) : String :=
  "Components: (" ++ fmt f.value0 ++ ", " ++ fmt f.value1 ++ ", " ++ fmt f.value2 ++ ")\n"

/-! ## class ElectricField (lab8.cpp:27-48) -/

/-- Derived class `ElectricField`: the base object and the member `calculatedE`. -/
structure ElectricField (R : Type) extends Field R where
  calculatedE : R
deriving DecidableEq

/-- Constructor `ElectricField() : Field(), calculatedE(0.0)`. -/
def ElectricField.default {R : Type} [DivisionRing R] : ElectricField R :=
  ElectricField.mk Field.default 0.0

/-- Constructor `ElectricField(double x, double y, double z) : Field(x, y, z), calculatedE(0.0)`. -/
def ElectricField.ofXYZ {R : Type} [DivisionRing R] (x y z : R) : ElectricField R :=
  ElectricField.mk (Field.ofXYZ x y z) 0.0

/-- Copy constructor `ElectricField(const ElectricField &e) : Field(e), calculatedE(e.calculatedE)`. -/
def ElectricField.copy {R : Type} (e : ElectricField R) : ElectricField R :=
  ElectricField.mk (Field.mk e.value0 e.value1 e.value2) e.calculatedE

/-- Member `calculateElectricField(Q, r)`: the object after the call.
The body is the single assignment `calculatedE = Q / (4 * M_PI * r * r * EPSILON_0)`. -/
def ElectricField.calculateElectricField {R : Type} [DivisionRing R] (pi : R)
    (this : ElectricField R) (Q r : R) : ElectricField R :=
  ElectricField.mk this.toField (Q / (4 * pi * r * r * EPSILON_0))

/-- Value returned by `ElectricField::operator+`. -/
def ElectricField.add {R : Type} [DivisionRing R] (this other : ElectricField R) :
    ElectricField R :=
  ElectricField.ofXYZ (this.value0 + other.value0) (this.value1 + other.value1)
    (this.value2 + other.value2)

/-- The call `this + other` with its effect on the operands made explicit:
`this` after the call, `other` after the call, and the returned object.
The body of `operator+` is a single `return`; it assigns to no member. -/
def ElectricField.addCall {R : Type} [DivisionRing R] (this other : ElectricField R) :
    ElectricField R × ElectricField R × ElectricField R :=
  (this, other, ElectricField.add this other)

/-- Text written by `operator<<(std::ostream&, const ElectricField&)`. -/
def ElectricField.print {R : Type} (fmt : R → String) (e : ElectricField R) : String :=
  "E-Field: (" ++ fmt e.value0 ++ ", " ++ fmt e.value1 ++ ", " ++ fmt e.value2 ++ ")"

/-! ## class MagneticField (lab8.cpp:51-72) -/

/-- Derived class `MagneticField`: the base object and the member `calculatedB`. -/
structure MagneticField (R : Type) extends Field R where
  calculatedB : R
deriving DecidableEq

/-- Constructor `MagneticField() : Field(), calculatedB(0.0)`. -/
def MagneticField.default {R : Type} [DivisionRing R] : MagneticField R :=
  MagneticField.mk Field.default 0.0

/-- Constructor `MagneticField(double x, double y, double z) : Field(x, y, z), calculatedB(0.0)`. -/
def MagneticField.ofXYZ {R : Type} [DivisionRing R] (x y z : R) : MagneticField R :=
  MagneticField.mk (Field.ofXYZ x y z) 0.0

/-- Copy constructor `MagneticField(const MagneticField &b) : Field(b), calculatedB(b.calculatedB)`. -/
def MagneticField.copy {R : Type} (b : MagneticField R) : MagneticField R :=
  MagneticField.mk (Field.mk b.value0 b.value1 b.value2) b.calculatedB

/-- Member `calculateMagneticField(I, r)`: the object after the call.
The body is the single assignment `calculatedB = (MU_0 * I) / (2 * M_PI * r)`. -/
def MagneticField.calculateMagneticField {R : Type} [DivisionRing R] (pi : R)
    (this : MagneticField R) (I r : R) : MagneticField R :=
  MagneticField.mk this.toField ((MU_0 pi * I) / (2 * pi * r))

/-- Value returned by `MagneticField::operator+`. -/
def MagneticField.add {R : Type} [DivisionRing R] (this other : MagneticField R) :
    MagneticField R :=
  MagneticField.ofXYZ (this.value0 + other.value0) (this.value1 + other.value1)
    (this.value2 + other.value2)

/-- The call `this + other` with its effect on the operands made explicit:
`this` after the call, `other` after the call, and the returned object.
The body of `operator+` is a single `return`; it assigns to no member. -/
def MagneticField.addCall {R : Type} [DivisionRing R] (this other : MagneticField R) :
    MagneticField R × MagneticField R × MagneticField R :=
  (this, other, MagneticField.add this other)

/-- Text written by `operator<<(std::ostream&, const MagneticField&)`. -/
def MagneticField.print {R : Type} (fmt : R → String) (b : MagneticField R) : String :=
  "B-Field: (" ++ fmt b.value0 ++ ", " ++ fmt b.value1 ++ ", " ++ fmt b.value2 ++ ")"

/-! ## main (lab8.cpp:74-103) -/

/-- What a run of `main` leaves behind: the local objects at `return`, the text
of each `std::cout` statement in program order, and the exit code. -/
structure Run (R : Type) where
  e1 : ElectricField R
  e2 : ElectricField R
  b1 : MagneticField R
  b2 : MagneticField R
  e3 : ElectricField R
  b3 : MagneticField R
  out : List String
  exitCode : Int

/-- The function `main`, statement by statement. -/
def main {R : Type} [DivisionRing R] (pi : R) (fmt : R → String) : Run R :=
  let e1 : ElectricField R := ElectricField.ofXYZ 0 1e5 1e3
  let e2 : ElectricField R := ElectricField.ofXYZ 1e4 2e5 3e3
  let b1 : MagneticField R := MagneticField.ofXYZ 0 2 1
  let b2 : MagneticField R := MagneticField.ofXYZ 3 1 4
  let o0 := "Initial Fields:\n"
  let o1 := e1.toField.printMagnitude fmt
  let o2 := b1.toField.printMagnitude fmt
  let Q : R := 1e-6
  let r : R := 0.1
  let e1 := e1.calculateElectricField pi Q r
  let o3 := "\nE at r = " ++ fmt r ++ ": " ++ e1.print fmt ++ "\n"
  let I : R := 10
  let b1 := b1.calculateMagneticField pi I r
  let o4 := "B at r = " ++ fmt r ++ ": " ++ b1.print fmt ++ "\n"
  let callE := ElectricField.addCall e1 e2
  let e1 := callE.1
  let e2 := callE.2.1
  let e3 := callE.2.2
  let callB := MagneticField.addCall b1 b2
  let b1 := callB.1
  let b2 := callB.2.1
  let b3 := callB.2.2
  let o5 := "\nSummed Fields:\n"
  let o6 := e3.print fmt ++ "\n"
  let o7 := b3.print fmt ++ "\n"
  Run.mk e1 e2 b1 b2 e3 b3 [o0, o1, o2, o3, o4, o5, o6, o7] 0

/-! ## Operations on one sample, as steps on its state -/

/-- The copy construction `ElectricField c(e)` with its effect on the source
made explicit: `e` after the call (it is bound as `const ElectricField &`) and
the new object. -/
def ElectricField.copyCall {R : Type} (e : ElectricField R) :
    ElectricField R × ElectricField R :=
  (e, e.copy)

/-- The copy construction `MagneticField c(b)` with its effect on the source
made explicit: `b` after the call (it is bound as `const MagneticField &`) and
the new object. -/
def MagneticField.copyCall {R : Type} (b : MagneticField R) :
    MagneticField R × MagneticField R :=
  (b, b.copy)

/-- One operation in which an electric sample `s` takes part. -/
inductive ElectricOp (R : Type) where
  /-- The call `s.calculateElectricField(Q, r)`. -/
  | formula (Q r : R)
  /-- The expression `s + other`. -/
  | addLeft (other : ElectricField R)
  /-- The expression `other + s`. -/
  | addRight (other : ElectricField R)
  /-- The copy construction `ElectricField c(s)`. -/
  | copied

/-- One operation in which a magnetic sample `s` takes part. -/
inductive MagneticOp (R : Type) where
  /-- The call `s.calculateMagneticField(I, r)`. -/
  | formula (I r : R)
  /-- The expression `s + other`. -/
  | addLeft (other : MagneticField R)
  /-- The expression `other + s`. -/
  | addRight (other : MagneticField R)
  /-- The copy construction `MagneticField c(s)`. -/
  | copied

/-- Whether the operation is the formula call. -/
def ElectricOp.isFormula {R : Type} : ElectricOp R → Bool
  | ElectricOp.formula _ _ => true
  | _ => false

/-- Whether the operation is the formula call. -/
def MagneticOp.isFormula {R : Type} : MagneticOp R → Bool
  | MagneticOp.formula _ _ => true
  | _ => false

/-- The sample `s` after one operation. -/
def ElectricField.afterOp {R : Type} [DivisionRing R] (pi : R) (s : ElectricField R) :
    ElectricOp R → ElectricField R
  | ElectricOp.formula Q r => s.calculateElectricField pi Q r
  | ElectricOp.addLeft other => (ElectricField.addCall s other).1
  | ElectricOp.addRight other => (ElectricField.addCall other s).2.1
  | ElectricOp.copied => (ElectricField.copyCall s).1

/-- The sample `s` after one operation. -/
def MagneticField.afterOp {R : Type} [DivisionRing R] (pi : R) (s : MagneticField R) :
    MagneticOp R → MagneticField R
  | MagneticOp.formula I r => s.calculateMagneticField pi I r
  | MagneticOp.addLeft other => (MagneticField.addCall s other).1
  | MagneticOp.addRight other => (MagneticField.addCall other s).2.1
  | MagneticOp.copied => (MagneticField.copyCall s).1

/-- The sample `s` after a sequence of operations, first to last. -/
def ElectricField.afterOps {R : Type} [DivisionRing R] (pi : R) (s : ElectricField R)
    (ops : List (ElectricOp R)) : ElectricField R :=
  ops.foldl (ElectricField.afterOp pi) s

/-- The sample `s` after a sequence of operations, first to last. -/
def MagneticField.afterOps {R : Type} [DivisionRing R] (pi : R) (s : MagneticField R)
    (ops : List (MagneticOp R)) : MagneticField R :=
  ops.foldl (MagneticField.afterOp pi) s

end Lab8

/-! ## Basic facts shared by the theorems below -/

namespace Lab8

section Basics

variable {R : Type} [LinearOrderedField R]

theorem zeroLit_eq : (0.0 : R) = 0 := by norm_num

theorem electric_eq_iff {S : Type} (a b : ElectricField S) :
    a = b ↔ a.value0 = b.value0 ∧ a.value1 = b.value1 ∧ a.value2 = b.value2 ∧
      a.calculatedE = b.calculatedE := by
  obtain ⟨⟨a0, a1, a2⟩, ae⟩ := a
  obtain ⟨⟨b0, b1, b2⟩, be⟩ := b
  simp only [ElectricField.mk.injEq, Field.mk.injEq, and_assoc]

theorem magnetic_eq_iff {S : Type} (a b : MagneticField S) :
    a = b ↔ a.value0 = b.value0 ∧ a.value1 = b.value1 ∧ a.value2 = b.value2 ∧
      a.calculatedB = b.calculatedB := by
  obtain ⟨⟨a0, a1, a2⟩, ae⟩ := a
  obtain ⟨⟨b0, b1, b2⟩, be⟩ := b
  simp only [MagneticField.mk.injEq, Field.mk.injEq, and_assoc]

theorem electric_add_toField (a b : ElectricField R) :
    (a.add b).toField =
      Field.mk (a.value0 + b.value0) (a.value1 + b.value1) (a.value2 + b.value2) := rfl

theorem magnetic_add_toField (a b : MagneticField R) :
    (a.add b).toField =
      Field.mk (a.value0 + b.value0) (a.value1 + b.value1) (a.value2 + b.value2) := rfl

theorem electric_add_calculatedE (a b : ElectricField R) :
    (a.add b).calculatedE = 0 := zeroLit_eq

theorem magnetic_add_calculatedB (a b : MagneticField R) :
    (a.add b).calculatedB = 0 := zeroLit_eq

theorem electric_calculateElectricField_toField (pi : R) (s : ElectricField R) (Q r : R) :
    (s.calculateElectricField pi Q r).toField = s.toField := rfl

theorem magnetic_calculateMagneticField_toField (pi : R) (s : MagneticField R) (I r : R) :
    (s.calculateMagneticField pi I r).toField = s.toField := rfl

end Basics

/-! ## Addition (lab8.cpp:40-42, 64-66) -/

section Addition

variable {R : Type} [LinearOrderedField R]

/-- C1. `ElectricField::operator+` returns a sample whose vector is the pairwise
sum of the operands' components, whatever their stored magnitudes; for
e1 = (0, 1e5, 1e3) and e2 = (1e4, 2e5, 3e3) the sum has vector (1e4, 3e5, 4e3),
also after `e1.calculateElectricField(1e-6, 0.1)`, and that is `e3` of `main`. -/
theorem electricField_add_componentwise (pi : R) (fmt : R → String) :
    (∀ a b : ElectricField R, (a.add b).toField =
        Field.mk (a.value0 + b.value0) (a.value1 + b.value1) (a.value2 + b.value2)) ∧
    ((ElectricField.ofXYZ 0 1e5 1e3).add (ElectricField.ofXYZ 1e4 2e5 3e3)).toField =
        (Field.mk 1e4 3e5 4e3 : Field R) ∧
    (((ElectricField.ofXYZ 0 1e5 1e3).calculateElectricField pi 1e-6 0.1).add
        (ElectricField.ofXYZ 1e4 2e5 3e3)).toField = (Field.mk 1e4 3e5 4e3 : Field R) ∧
    (main pi fmt).e3.toField = (Field.mk 1e4 3e5 4e3 : Field R) := by
  have h : ((ElectricField.ofXYZ 0 1e5 1e3).add (ElectricField.ofXYZ 1e4 2e5 3e3)).toField =
      (Field.mk 1e4 3e5 4e3 : Field R) := by
    rw [electric_add_toField]
    simp only [ElectricField.ofXYZ, Field.ofXYZ, Field.mk.injEq]
    norm_num
  exact ⟨fun a b => electric_add_toField a b, h, h, h⟩

/-- C2. `MagneticField::operator+` returns a sample whose vector is the pairwise
sum of the operands' components, whatever their stored magnitudes; for
b1 = (0, 2, 1) and b2 = (3, 1, 4) the sum has vector (3, 3, 5), also after
`b1.calculateMagneticField(10, 0.1)`, and that is `b3` of `main`. -/
theorem magneticField_add_componentwise (pi : R) (fmt : R → String) :
    (∀ a b : MagneticField R, (a.add b).toField =
        Field.mk (a.value0 + b.value0) (a.value1 + b.value1) (a.value2 + b.value2)) ∧
    ((MagneticField.ofXYZ 0 2 1).add (MagneticField.ofXYZ 3 1 4)).toField =
        (Field.mk 3 3 5 : Field R) ∧
    (((MagneticField.ofXYZ 0 2 1).calculateMagneticField pi 10 0.1).add
        (MagneticField.ofXYZ 3 1 4)).toField = (Field.mk 3 3 5 : Field R) ∧
    (main pi fmt).b3.toField = (Field.mk 3 3 5 : Field R) := by
  have h : ((MagneticField.ofXYZ 0 2 1).add (MagneticField.ofXYZ 3 1 4)).toField =
      (Field.mk 3 3 5 : Field R) := by
    rw [magnetic_add_toField]
    simp only [MagneticField.ofXYZ, Field.ofXYZ, Field.mk.injEq]
    norm_num
  exact ⟨fun a b => magnetic_add_toField a b, h, h, h⟩

/-- C3. Addition is commutative on whole samples (vector and computed
magnitude), for electric and for magnetic samples, whatever the operands'
stored magnitudes. -/
theorem add_comm_samples :
    (∀ a b : ElectricField R, a.add b = b.add a) ∧
    (∀ a b : MagneticField R, a.add b = b.add a) := by
  constructor
  · intro a b
    rw [electric_eq_iff]
    simp only [electric_add_toField, electric_add_calculatedE]
    exact ⟨add_comm _ _, add_comm _ _, add_comm _ _, trivial⟩
  · intro a b
    rw [magnetic_eq_iff]
    simp only [magnetic_add_toField, magnetic_add_calculatedB]
    exact ⟨add_comm _ _, add_comm _ _, add_comm _ _, trivial⟩

end Addition

/-! ## The two formulas (lab8.cpp:36-38, 60-62) -/

section Formulas

variable {R : Type} [LinearOrderedField R]

/-- C5. For every magnetic sample, current `I` and distance `r`,
`calculateMagneticField(I, r)` leaves `calculatedB = (μ₀·I) / (2·π·r)` with
μ₀ = 4·π·1e-7 and leaves the three vector components as they were. -/
theorem calculateMagneticField_spec (pi : R) (s : MagneticField R) (I r : R) :
    (s.calculateMagneticField pi I r).calculatedB = (4 * pi * 1e-7 * I) / (2 * pi * r) ∧
    (s.calculateMagneticField pi I r).value0 = s.value0 ∧
    (s.calculateMagneticField pi I r).value1 = s.value1 ∧
    (s.calculateMagneticField pi I r).value2 = s.value2 :=
  ⟨rfl, rfl, rfl, rfl⟩

/-- The value stored by `calculateElectricField(1e-6, 0.1)`, in lowest terms. -/
theorem calculateElectricField_main_value (pi : R) (s : ElectricField R) :
    (s.calculateElectricField pi 1e-6 0.1).calculatedE = 10000000 / (pi * (354 / 100)) := by
  show (1e-6 : R) / (4 * pi * 0.1 * 0.1 * EPSILON_0) = 10000000 / (pi * (354 / 100))
  rw [EPSILON_0]
  rcases eq_or_ne pi 0 with h | h
  · simp [h]
  · field_simp
    norm_num
    ring

/-- C6, as amended. With π between 3.1415 and 3.1416,
`calculateElectricField(1e-6, 0.1)` stores `1e-6 / (4·π·0.01·8.85e-12)`, which is
positive and approximately 8.992e5: it lies in [8.9915e5, 8.9925e5). -/
theorem calculateElectricField_main_approx (pi : R) (hlo : 3.1415 < pi) (hhi : pi < 3.1416)
    (s : ElectricField R) :
    (s.calculateElectricField pi 1e-6 0.1).calculatedE = 1e-6 / (4 * pi * 0.01 * 8.85e-12) ∧
    0 < (s.calculateElectricField pi 1e-6 0.1).calculatedE ∧
    8.9915e5 ≤ (s.calculateElectricField pi 1e-6 0.1).calculatedE ∧
    (s.calculateElectricField pi 1e-6 0.1).calculatedE < 8.9925e5 := by
  have hpos : 0 < pi := lt_trans (by norm_num) hlo
  have hden : 0 < pi * (354 / 100) := by positivity
  refine ⟨?_, ?_, ?_, ?_⟩
  · rw [calculateElectricField_main_value]
    field_simp
    norm_num
    ring
  · rw [calculateElectricField_main_value]
    positivity
  · rw [calculateElectricField_main_value, le_div_iff₀ hden]
    norm_num at hhi ⊢
    linarith
  · rw [calculateElectricField_main_value, div_lt_iff₀ hden]
    norm_num at hlo ⊢
    linarith

/-- C7. With π nonzero, `calculateMagneticField(10, 0.1)` stores
`(4·π·1e-7·10) / (2·π·0.1)`, which is exactly 2e-5; this is the value held by
`b1` at the end of `main`. -/
theorem calculateMagneticField_main_value (pi : R) (hpi : pi ≠ 0) (fmt : R → String)
    (s : MagneticField R) :
    (s.calculateMagneticField pi 10 0.1).calculatedB = (4 * pi * 1e-7 * 10) / (2 * pi * 0.1) ∧
    (s.calculateMagneticField pi 10 0.1).calculatedB = 2e-5 ∧
    (main pi fmt).b1.calculatedB = 2e-5 := by
  have h : (4 * pi * 1e-7 * 10) / (2 * pi * 0.1) = (2e-5 : R) := by
    field_simp
    norm_num
    ring
  exact ⟨rfl, h, h⟩

end Formulas

/-- Witness for C7: the real number π and the sample `b1` of `main`. -/
theorem calculateMagneticField_main_value_real :
    Real.pi ≠ 0 ∧
    ((MagneticField.ofXYZ 0 2 1).calculateMagneticField Real.pi 10 0.1).calculatedB =
      (2e-5 : ℝ) :=
  ⟨Real.pi_ne_zero,
    (calculateMagneticField_main_value Real.pi Real.pi_ne_zero (fun _ => "")
      (MagneticField.ofXYZ 0 2 1)).2.1⟩

/-- Witness for C6 as amended: the real number π and the sample `e1` of `main`. -/
theorem calculateElectricField_main_approx_real :
    (3.1415 : ℝ) < Real.pi ∧ Real.pi < 3.1416 ∧
    8.9915e5 ≤ ((ElectricField.ofXYZ 0 1e5 1e3).calculateElectricField
        Real.pi 1e-6 0.1).calculatedE ∧
    ((ElectricField.ofXYZ 0 1e5 1e3).calculateElectricField
        Real.pi 1e-6 0.1).calculatedE < 8.9925e5 :=
  ⟨Real.pi_gt_d4, Real.pi_lt_d4,
    (calculateElectricField_main_approx Real.pi Real.pi_gt_d4 Real.pi_lt_d4 _).2.2.1,
    (calculateElectricField_main_approx Real.pi Real.pi_gt_d4 Real.pi_lt_d4 _).2.2.2⟩

/-- Counterexample to C6 as stated: with the real number π, the value stored in
`e1` by `calculateElectricField(1e-6, 0.1)` is not in [8.9875e5, 8.9885e5); it
is above that interval. -/
theorem calculateElectricField_main_not_8988e5 :
    ¬ (8.9875e5 ≤ ((ElectricField.ofXYZ 0 1e5 1e3).calculateElectricField
          Real.pi 1e-6 0.1).calculatedE ∧
       ((ElectricField.ofXYZ 0 1e5 1e3).calculateElectricField
          Real.pi 1e-6 0.1).calculatedE < (8.9885e5 : ℝ)) := by
  rintro ⟨-, h⟩
  have hden : 0 < Real.pi * (354 / 100) := by positivity
  rw [calculateElectricField_main_value, div_lt_iff₀ hden] at h
  have hpi := Real.pi_lt_d4
  norm_num at h hpi
  linarith

/-! ## Frame of addition, construction, output of `main` -/

section Frame

variable {R : Type} [LinearOrderedField R]

/-- C8. Addition does not combine computed magnitudes and returns a new sample:
the computed magnitude of `a + b` is 0 for all operands, electric or magnetic,
which for suitable operands differs from the sum of theirs, and both operands
are the same after the call as before it. -/
theorem add_frame :
    (∀ a b : ElectricField R, (ElectricField.addCall a b).2.2.calculatedE = 0 ∧
        (ElectricField.addCall a b).2.2 = a.add b ∧
        (ElectricField.addCall a b).1 = a ∧ (ElectricField.addCall a b).2.1 = b) ∧
    (∀ a b : MagneticField R, (MagneticField.addCall a b).2.2.calculatedB = 0 ∧
        (MagneticField.addCall a b).2.2 = a.add b ∧
        (MagneticField.addCall a b).1 = a ∧ (MagneticField.addCall a b).2.1 = b) ∧
    (∃ a b : ElectricField R, (a.add b).calculatedE ≠ a.calculatedE + b.calculatedE) ∧
    (∃ a b : MagneticField R, (a.add b).calculatedB ≠ a.calculatedB + b.calculatedB) := by
  refine ⟨fun a b => ⟨electric_add_calculatedE a b, rfl, rfl, rfl⟩,
    fun a b => ⟨magnetic_add_calculatedB a b, rfl, rfl, rfl⟩, ?_, ?_⟩
  · refine ⟨ElectricField.mk (Field.mk 0 0 0) 1, ElectricField.mk (Field.mk 0 0 0) 1, ?_⟩
    rw [electric_add_calculatedE]
    norm_num
  · refine ⟨MagneticField.mk (Field.mk 0 0 0) 1, MagneticField.mk (Field.mk 0 0 0) 1, ?_⟩
    rw [magnetic_add_calculatedB]
    norm_num

/-- C9. Default construction of a `Field`, an `ElectricField` and a
`MagneticField` gives vector (0, 0, 0), with computed magnitude 0 for the two
derived classes; construction from `x`, `y`, `z` gives vector (x, y, z) with
computed magnitude 0. -/
theorem construction_spec (x y z : R) :
    (Field.default : Field R) = Field.mk 0 0 0 ∧
    (ElectricField.default : ElectricField R) = ElectricField.mk (Field.mk 0 0 0) 0 ∧
    (MagneticField.default : MagneticField R) = MagneticField.mk (Field.mk 0 0 0) 0 ∧
    Field.ofXYZ x y z = Field.mk x y z ∧
    ElectricField.ofXYZ x y z = ElectricField.mk (Field.mk x y z) 0 ∧
    MagneticField.ofXYZ x y z = MagneticField.mk (Field.mk x y z) 0 := by
  simp only [Field.default, ElectricField.default, MagneticField.default, Field.ofXYZ,
    ElectricField.ofXYZ, MagneticField.ofXYZ, zeroLit_eq, and_self]

/-- C10, what the code does. The fourth and fifth output statements of `main`
(the "E at r = " and "B at r = " lines) write the text of the vector
components of `e1` and `b1` as constructed, (0, 1e5, 1e3) and (0, 2, 1). The
magnitudes stored by the two formula calls are held in `e1` and `b1`, and each
line is the same text whatever magnitude `m` the printed sample holds. -/
theorem main_field_lines (pi : R) (fmt : R → String) :
    (main pi fmt).out.get? 3 = some ("\nE at r = " ++ fmt 0.1 ++ ": " ++
        ("E-Field: (" ++ fmt 0 ++ ", " ++ fmt 1e5 ++ ", " ++ fmt 1e3 ++ ")") ++ "\n") ∧
    (main pi fmt).out.get? 4 = some ("B at r = " ++ fmt 0.1 ++ ": " ++
        ("B-Field: (" ++ fmt 0 ++ ", " ++ fmt 2 ++ ", " ++ fmt 1 ++ ")") ++ "\n") ∧
    (main pi fmt).e1.calculatedE = 1e-6 / (4 * pi * 0.1 * 0.1 * 8.85e-12) ∧
    (main pi fmt).b1.calculatedB = (4 * pi * 1e-7 * 10) / (2 * pi * 0.1) ∧
    (∀ m : R, (main pi fmt).out.get? 3 = some ("\nE at r = " ++ fmt 0.1 ++ ": " ++
        (ElectricField.mk (main pi fmt).e1.toField m).print fmt ++ "\n")) ∧
    (∀ m : R, (main pi fmt).out.get? 4 = some ("B at r = " ++ fmt 0.1 ++ ": " ++
        (MagneticField.mk (main pi fmt).b1.toField m).print fmt ++ "\n")) :=
  ⟨rfl, rfl, rfl, rfl, fun _ => rfl, fun _ => rfl⟩

end Frame

/-! ## Text and copies -/

section TextCopy

variable {R : Type} [LinearOrderedField R]

theorem electric_copy_eq {S : Type} (s : ElectricField S) : s.copy = s := by
  obtain ⟨⟨x, y, z⟩, m⟩ := s
  rfl

theorem magnetic_copy_eq {S : Type} (s : MagneticField S) : s.copy = s := by
  obtain ⟨⟨x, y, z⟩, m⟩ := s
  rfl

/-- C11. The text of an electric sample is "E-Field: (" followed by the three
components in x, y, z order separated by ", " and then ")"; a magnetic sample
has the same with "B-Field: (". The text depends on the components only: two
samples with the same vector and different computed magnitudes have the same
text. -/
theorem print_spec (fmt : R → String) :
    (∀ e : ElectricField R, e.print fmt =
        "E-Field: (" ++ fmt e.value0 ++ ", " ++ fmt e.value1 ++ ", " ++ fmt e.value2 ++ ")") ∧
    (∀ b : MagneticField R, b.print fmt =
        "B-Field: (" ++ fmt b.value0 ++ ", " ++ fmt b.value1 ++ ", " ++ fmt b.value2 ++ ")") ∧
    (∀ (v : Field R) (m n : R),
        (ElectricField.mk v m).print fmt = (ElectricField.mk v n).print fmt) ∧
    (∀ (v : Field R) (m n : R),
        (MagneticField.mk v m).print fmt = (MagneticField.mk v n).print fmt) ∧
    (∀ (pi Q r : R) (e : ElectricField R),
        (e.calculateElectricField pi Q r).print fmt = e.print fmt) ∧
    (∀ (pi I r : R) (b : MagneticField R),
        (b.calculateMagneticField pi I r).print fmt = b.print fmt) :=
  ⟨fun _ => rfl, fun _ => rfl, fun _ _ _ => rfl, fun _ _ _ => rfl,
    fun _ _ _ _ => rfl, fun _ _ _ _ => rfl⟩

/-- C14. The copy of a sample has the same three components and the same
computed magnitude as the sample, for electric and magnetic samples, also after
the sample has been changed by its formula call; the source is left as it was. -/
theorem copy_spec (pi : R) :
    (∀ s : ElectricField R, s.copy.value0 = s.value0 ∧ s.copy.value1 = s.value1 ∧
        s.copy.value2 = s.value2 ∧ s.copy.calculatedE = s.calculatedE ∧ s.copy = s) ∧
    (∀ s : MagneticField R, s.copy.value0 = s.value0 ∧ s.copy.value1 = s.value1 ∧
        s.copy.value2 = s.value2 ∧ s.copy.calculatedB = s.calculatedB ∧ s.copy = s) ∧
    (∀ (s : ElectricField R) (Q r : R),
        (s.calculateElectricField pi Q r).copy = s.calculateElectricField pi Q r ∧
        (s.calculateElectricField pi Q r).copy.calculatedE =
          Q / (4 * pi * r * r * 8.85e-12)) ∧
    (∀ (s : MagneticField R) (I r : R),
        (s.calculateMagneticField pi I r).copy = s.calculateMagneticField pi I r ∧
        (s.calculateMagneticField pi I r).copy.calculatedB =
          (4 * pi * 1e-7 * I) / (2 * pi * r)) ∧
    (∀ s : ElectricField R, (ElectricField.copyCall s).1 = s ∧
        (ElectricField.copyCall s).2 = s) ∧
    (∀ s : MagneticField R, (MagneticField.copyCall s).1 = s ∧
        (MagneticField.copyCall s).2 = s) :=
  ⟨fun _ => ⟨rfl, rfl, rfl, rfl, electric_copy_eq _⟩,
    fun _ => ⟨rfl, rfl, rfl, rfl, magnetic_copy_eq _⟩,
    fun _ _ _ => ⟨electric_copy_eq _, rfl⟩,
    fun _ _ _ => ⟨magnetic_copy_eq _, rfl⟩,
    fun _ => ⟨rfl, electric_copy_eq _⟩,
    fun _ => ⟨rfl, magnetic_copy_eq _⟩⟩

end TextCopy

/-! ## Sequences of operations on one sample -/

section Lifecycle

variable {R : Type} [LinearOrderedField R]

theorem electric_afterOp_of_not_formula (pi : R) (s : ElectricField R) (op : ElectricOp R)
    (h : op.isFormula = false) : s.afterOp pi op = s := by
  cases op with
  | formula Q r => exact absurd h (by simp [ElectricOp.isFormula])
  | addLeft other => rfl
  | addRight other => rfl
  | copied => rfl

theorem magnetic_afterOp_of_not_formula (pi : R) (s : MagneticField R) (op : MagneticOp R)
    (h : op.isFormula = false) : s.afterOp pi op = s := by
  cases op with
  | formula I r => exact absurd h (by simp [MagneticOp.isFormula])
  | addLeft other => rfl
  | addRight other => rfl
  | copied => rfl

theorem electric_afterOps_append (pi : R) (s : ElectricField R) (ops : List (ElectricOp R))
    (op : ElectricOp R) :
    s.afterOps pi (ops ++ [op]) = (s.afterOps pi ops).afterOp pi op := by
  simp only [ElectricField.afterOps, List.foldl_append, List.foldl_cons, List.foldl_nil]

theorem magnetic_afterOps_append (pi : R) (s : MagneticField R) (ops : List (MagneticOp R))
    (op : MagneticOp R) :
    s.afterOps pi (ops ++ [op]) = (s.afterOps pi ops).afterOp pi op := by
  simp only [MagneticField.afterOps, List.foldl_append, List.foldl_cons, List.foldl_nil]

/-- C12, as amended. A sequence of additions and copies in which a sample takes
part leaves the whole sample, hence its computed magnitude, as it was, so such
operations never reset or change a stored magnitude. A formula call after any
sequence of operations overwrites the stored magnitude with the newly computed
value, whatever was stored before. -/
theorem add_copy_keep_magnitude (pi : R) (s : ElectricField R) (t : MagneticField R)
    (ops : List (ElectricOp R)) (bops : List (MagneticOp R))
    (h : ∀ op ∈ ops, op.isFormula = false) (hb : ∀ op ∈ bops, op.isFormula = false) :
    s.afterOps pi ops = s ∧ (s.afterOps pi ops).calculatedE = s.calculatedE ∧
    t.afterOps pi bops = t ∧ (t.afterOps pi bops).calculatedB = t.calculatedB ∧
    (∀ (pre : List (ElectricOp R)) (Q r : R),
        (s.afterOps pi (pre ++ [ElectricOp.formula Q r])).calculatedE =
          Q / (4 * pi * r * r * 8.85e-12)) ∧
    (∀ (pre : List (MagneticOp R)) (I r : R),
        (t.afterOps pi (pre ++ [MagneticOp.formula I r])).calculatedB =
          (4 * pi * 1e-7 * I) / (2 * pi * r)) := by
  have hs : s.afterOps pi ops = s := by
    induction ops using List.reverseRecOn with
    | nil => rfl
    | append_singleton pre op ih =>
      rw [electric_afterOps_append,
        ih (fun o ho => h o (List.mem_append_left _ ho)),
        electric_afterOp_of_not_formula pi s op (h op (by simp))]
  have ht : t.afterOps pi bops = t := by
    induction bops using List.reverseRecOn with
    | nil => rfl
    | append_singleton pre op ih =>
      rw [magnetic_afterOps_append,
        ih (fun o ho => hb o (List.mem_append_left _ ho)),
        magnetic_afterOp_of_not_formula pi t op (hb op (by simp))]
  refine ⟨hs, by rw [hs], ht, by rw [ht], ?_, ?_⟩
  · intro pre Q r
    rw [electric_afterOps_append]
    rfl
  · intro pre I r
    rw [magnetic_afterOps_append]
    rfl

end Lifecycle

/-- Witness for C12 as amended: `e1` and `b1` of `main` after their formula
calls, each then used as left operand, copied, and used as right operand. -/
theorem add_copy_keep_magnitude_real :
    (∀ op ∈ [ElectricOp.addLeft (ElectricField.ofXYZ (1e4 : ℝ) 2e5 3e3), ElectricOp.copied,
        ElectricOp.addRight (ElectricField.ofXYZ (1e4 : ℝ) 2e5 3e3)], op.isFormula = false) ∧
    (∀ op ∈ [MagneticOp.addLeft (MagneticField.ofXYZ (3 : ℝ) 1 4), MagneticOp.copied,
        MagneticOp.addRight (MagneticField.ofXYZ (3 : ℝ) 1 4)], op.isFormula = false) ∧
    (((ElectricField.ofXYZ 0 1e5 1e3).calculateElectricField Real.pi 1e-6 0.1).afterOps Real.pi
        [ElectricOp.addLeft (ElectricField.ofXYZ (1e4 : ℝ) 2e5 3e3), ElectricOp.copied,
          ElectricOp.addRight (ElectricField.ofXYZ (1e4 : ℝ) 2e5 3e3)]).calculatedE =
      ((ElectricField.ofXYZ 0 1e5 1e3).calculateElectricField Real.pi 1e-6 0.1).calculatedE ∧
    (((MagneticField.ofXYZ 0 2 1).calculateMagneticField Real.pi 10 0.1).afterOps Real.pi
        [MagneticOp.addLeft (MagneticField.ofXYZ (3 : ℝ) 1 4), MagneticOp.copied,
          MagneticOp.addRight (MagneticField.ofXYZ (3 : ℝ) 1 4)]).calculatedB =
      ((MagneticField.ofXYZ 0 2 1).calculateMagneticField Real.pi 10 0.1).calculatedB :=
  have he : ∀ op ∈ [ElectricOp.addLeft (ElectricField.ofXYZ (1e4 : ℝ) 2e5 3e3),
      ElectricOp.copied, ElectricOp.addRight (ElectricField.ofXYZ (1e4 : ℝ) 2e5 3e3)],
      op.isFormula = false := by
    simp [ElectricOp.isFormula]
  have hm : ∀ op ∈ [MagneticOp.addLeft (MagneticField.ofXYZ (3 : ℝ) 1 4),
      MagneticOp.copied, MagneticOp.addRight (MagneticField.ofXYZ (3 : ℝ) 1 4)],
      op.isFormula = false := by
    simp [MagneticOp.isFormula]
  ⟨he, hm,
    (add_copy_keep_magnitude Real.pi
      ((ElectricField.ofXYZ 0 1e5 1e3).calculateElectricField Real.pi 1e-6 0.1)
      ((MagneticField.ofXYZ 0 2 1).calculateMagneticField Real.pi 10 0.1) _ _ he hm).2.1,
    (add_copy_keep_magnitude Real.pi
      ((ElectricField.ofXYZ 0 1e5 1e3).calculateElectricField Real.pi 1e-6 0.1)
      ((MagneticField.ofXYZ 0 2 1).calculateMagneticField Real.pi 10 0.1) _ _ he hm).2.2.2.1⟩

/-- Counterexample to C12 as stated. With the real number π, `e1` of `main`
holds a nonzero magnitude after `calculateElectricField(1e-6, 0.1)`; a second
call `calculateElectricField(0, 0.1)` sets it back to 0, and a second call
`calculateElectricField(2e-6, 0.1)` changes it. So it is not the case that a
nonzero stored magnitude survives every later operation on the sample. -/
theorem second_formula_call_overwrites :
    ((ElectricField.ofXYZ 0 1e5 1e3).afterOps Real.pi
        [ElectricOp.formula 1e-6 0.1]).calculatedE ≠ 0 ∧
    ((ElectricField.ofXYZ 0 1e5 1e3).afterOps Real.pi
        [ElectricOp.formula 1e-6 0.1, ElectricOp.formula 0 0.1]).calculatedE = 0 ∧
    ((ElectricField.ofXYZ 0 1e5 1e3).afterOps Real.pi
        [ElectricOp.formula 1e-6 0.1, ElectricOp.formula 2e-6 0.1]).calculatedE ≠
      ((ElectricField.ofXYZ 0 1e5 1e3).afterOps Real.pi
        [ElectricOp.formula 1e-6 0.1]).calculatedE ∧
    ¬ (∀ (s : ElectricField ℝ) (ops : List (ElectricOp ℝ)) (op : ElectricOp ℝ),
        (s.afterOps Real.pi ops).calculatedE ≠ 0 →
        ((s.afterOps Real.pi ops).afterOp Real.pi op).calculatedE =
          (s.afterOps Real.pi ops).calculatedE) := by
  have hd : (0 : ℝ) < 4 * Real.pi * 0.1 * 0.1 * EPSILON_0 := by
    have hpi := Real.pi_pos
    rw [EPSILON_0]
    positivity
  have h1 : ((ElectricField.ofXYZ 0 1e5 1e3).afterOps Real.pi
      [ElectricOp.formula 1e-6 0.1]).calculatedE ≠ 0 := by
    show (1e-6 : ℝ) / (4 * Real.pi * 0.1 * 0.1 * EPSILON_0) ≠ 0
    exact div_ne_zero (by norm_num) (ne_of_gt hd)
  have h2 : ((ElectricField.ofXYZ 0 1e5 1e3).afterOps Real.pi
      [ElectricOp.formula 1e-6 0.1, ElectricOp.formula 0 0.1]).calculatedE = 0 := by
    show (0 : ℝ) / (4 * Real.pi * 0.1 * 0.1 * EPSILON_0) = 0
    exact zero_div _
  refine ⟨h1, h2, ?_, ?_⟩
  · show (2e-6 : ℝ) / (4 * Real.pi * 0.1 * 0.1 * EPSILON_0) ≠
      1e-6 / (4 * Real.pi * 0.1 * 0.1 * EPSILON_0)
    rw [Ne, div_left_inj' (ne_of_gt hd)]
    norm_num
  · intro hall
    have h3 := hall (ElectricField.ofXYZ 0 1e5 1e3) [ElectricOp.formula 1e-6 0.1]
      (ElectricOp.formula 0 0.1) h1
    exact h1 (h3 ▸ h2)

end Lab8
